import Mathlib

/-!
Verification of the FM transmission pipeline in `transmit_fm.py`.

The numeric stages (`rationalRatio`, `renormalize`, `cumsum`/`fmModulate`,
`chunkSlice`/`numChunks`) are embedded as pure functions over `ℝ`/`ℂ`/`ℕ`,
translated line by line from `transmit_audio`.  The effectful control flow of
`transmit_audio` (device connection, configuration, chunked streaming, cleanup)
is embedded as `transmitAudioFlow`, a function from a description of which
external operations succeed to the returned Python value together with the
trace of hardware operations performed.
-/

namespace TransmitFM

/-- Lines 116-118 and 146-148 of `transmit_fm.py`:
`gcd = math.gcd(int(target), int(source)); up = target // gcd; down = source // gcd`.
Returns the pair `(up, down)`. -/
def rationalRatio (target source : ℕ) : ℕ × ℕ :=
  (target / Nat.gcd target source, source / Nat.gcd target source)

/-- Modelled from the spec: the repository delegates resampling to
`scipy.signal.resample_poly` (external to the repository); per the spec the
resampler's "output length equal to ceil(input_length × up / down)". -/
def resampleLength (L up down : ℕ) : ℕ :=
  (L * up + down - 1) / down

/-- Lines 128-133 of `transmit_fm.py`: `max_abs = np.max(np.abs(x))`,
embedded as a fold of `max` over the absolute values (all of them are
nonnegative, so the `0` base does not change the maximum). -/
noncomputable def peakAbs (xs : List ℝ) : ℝ :=
  (xs.map (fun x => |x|)).foldr max 0

/-- Lines 128-133 of `transmit_fm.py`:
`if max_abs > 0: x = x / max_abs * 0.95 else: x = x`. -/
noncomputable def renormalize (xs : List ℝ) : List ℝ :=
  if 0 < peakAbs xs then xs.map (fun x => x / peakAbs xs * 0.95) else xs

/-- Line 140 of `transmit_fm.py`: `np.cumsum`, the running sum with
accumulator `acc`. -/
def cumsumAux (acc : ℝ) : List ℝ → List ℝ
  | [] => []
  | x :: rest => (acc + x) :: cumsumAux (acc + x) rest

/-- Line 140 of `transmit_fm.py`: `np.cumsum(audio_resampled)`. -/
def cumsum (xs : List ℝ) : List ℝ := cumsumAux 0 xs

/-- Line 138 of `transmit_fm.py`:
`sensitivity = 2.0 * np.pi * fm_deviation / fs_resampled`. -/
noncomputable def sensitivity (deviation rate : ℝ) : ℝ :=
  2 * Real.pi * deviation / rate

/-- Lines 140-142 of `transmit_fm.py`:
`phase = sensitivity * np.cumsum(x); fm_signal = np.exp(1j * phase)`. -/
noncomputable def fmModulate (sens : ℝ) (xs : List ℝ) : List ℂ :=
  (cumsum xs).map (fun p => Complex.exp (Complex.I * ((sens * p : ℝ) : ℂ)))

/-- Line 200 of `transmit_fm.py`: `num_chunks = math.ceil(total / chunk_size)`;
for positive `C` the ceiling of the exact quotient is `(total + C - 1) / C`. -/
def numChunks (total C : ℕ) : ℕ :=
  (total + C - 1) / C

/-- Lines 210-212 of `transmit_fm.py`:
`start = i * C; end = min((i + 1) * C, total); chunk = x[start:end]`
(a Python slice `x[s:e]` is `take (e - s)` after `drop s`). -/
def chunkSlice (xs : List ℂ) (C i : ℕ) : List ℂ :=
  (xs.drop (i * C)).take (min ((i + 1) * C) xs.length - i * C)

/-- Hardware operations performed by `transmit_audio`, one constructor per
successful call site on the `sdr` handle (plus `releaseHandle` for `del sdr`). -/
inductive HWEvent
  | connect
  | setConfig
  | destroyBuffer
  | enableTx
  | send (i : ℕ)
  | disableTx
  | releaseHandle
  deriving DecidableEq

/-- Stub behaviour of the external hardware interface: which of the calls made
by `transmit_audio` succeed and which raise an exception. -/
structure HWBehavior where
  connectOk : Bool
  configOk : Bool
  preDestroyOk : Bool
  enableOk : Bool
  sendOk : ℕ → Bool
  disableOk : Bool
  destroyOk : Bool

/-- The sample encoding cases distinguished by lines 80-111 of
`transmit_fm.py`: integer PCM, floating PCM, or any other dtype, for which a
best-effort `astype(np.float32)` cast is attempted and may raise. -/
inductive AudioDType
  | intPCM
  | floatPCM
  | other (castOk : Bool)
  deriving DecidableEq

/-- One execution scenario of `transmit_audio`: outcomes of the fallible
external calls, the final scaled FM signal `fm_signal_sdr` produced by the
numeric stages, and the chunk size. -/
structure TransmitInput where
  readOk : Bool
  dtype : AudioDType
  resample1Ok : Bool
  resample2Ok : Bool
  signal : List ℂ
  chunkSize : ℕ
  hw : HWBehavior

/-- Lines 209-230 of `transmit_fm.py`: the chunk loop over the index list.
An empty chunk is skipped (`continue`); a successful `sdr.tx(chunk)` records
`send i`; a raising `sdr.tx(chunk)` is caught and `break`s the loop, so no
further events are produced.  No exception escapes the loop body. -/
def chunkLoopAux (hw : HWBehavior) (sig : List ℂ) (C : ℕ) :
    List ℕ → List HWEvent
  | [] => []
  | i :: rest =>
    if (chunkSlice sig C i).length = 0 then chunkLoopAux hw sig C rest
    else if hw.sendOk i then HWEvent.send i :: chunkLoopAux hw sig C rest
    else []

/-- Lines 242-257 of `transmit_fm.py`, the `finally` block: try to disable TX
and destroy the buffer (a raise here is caught and only logged, and a raise in
the disable step skips the destroy step), then unconditionally `del sdr`. -/
def cleanupEvents (hw : HWBehavior) : List HWEvent :=
  (if hw.disableOk then
      HWEvent.disableTx :: (if hw.destroyOk then [HWEvent.destroyBuffer] else [])
    else []) ++ [HWEvent.releaseHandle]

/-- Lines 62-260 of `transmit_fm.py`, the control flow of `transmit_audio`:
  * read failure (lines 66-71): `return False`;
  * unsupported dtype whose float cast raises (lines 100-111): bare `return`,
    i.e. Python `None`, embedded as `Option.none`;
  * a raise in either `resample_poly` call (lines 120-124, 150-154):
    `return False`;
  * `adi.Pluto` raising (lines 167-196): `sdr` is still `None`, so the except
    branch performs no hardware call and returns `False`;
  * configuration raising (lines 172-176): the except branch runs
    `if sdr: del sdr` and returns `False` — no disable, no buffer destroy;
  * then the swallowed `tx_destroy_buffer` attempt of lines 179-182, the
    `try` of lines 204-237 (enable, chunk loop, `transmission_successful =
    True` — the only raise reaching the except of line 239 is from the enable
    assignment, since chunk-send raises are caught inside the loop), and the
    `finally` cleanup of lines 242-257, whose `return` reports the flag. -/
def transmitAudioFlow (inp : TransmitInput) : Option Bool × List HWEvent :=
  if inp.readOk = false then (some false, [])
  else if inp.dtype = AudioDType.other false then (Option.none, [])
  else if inp.resample1Ok = false then (some false, [])
  else if inp.resample2Ok = false then (some false, [])
  else if inp.hw.connectOk = false then (some false, [])
  else if inp.hw.configOk = false then
    (some false, [HWEvent.connect, HWEvent.releaseHandle])
  else
    let pre := HWEvent.connect :: HWEvent.setConfig ::
      (if inp.hw.preDestroyOk then [HWEvent.destroyBuffer] else [])
    if inp.hw.enableOk = false then (some false, pre ++ cleanupEvents inp.hw)
    else
      (some true,
        pre ++ HWEvent.enableTx ::
          chunkLoopAux inp.hw inp.signal inp.chunkSize
            (List.range (numChunks inp.signal.length inp.chunkSize)) ++
        cleanupEvents inp.hw)

/-- Scenario in which all external calls succeed except `sdr.tx`, which raises
on every chunk after the first: three one-sample chunks, `sendOk` true only at
index 0. -/
def chunkFailInput : TransmitInput :=
  { readOk := true, dtype := AudioDType.floatPCM, resample1Ok := true,
    resample2Ok := true, signal := List.replicate 3 1, chunkSize := 1,
    hw := { connectOk := true, configOk := true, preDestroyOk := true,
            enableOk := true, sendOk := fun i => i == 0, disableOk := true,
            destroyOk := true } }

/-- Scenario in which the WAV file is read but its sample dtype is neither
integer nor floating PCM and the best-effort `astype(np.float32)` cast raises. -/
def castFailInput : TransmitInput :=
  { readOk := true, dtype := AudioDType.other false, resample1Ok := true,
    resample2Ok := true, signal := [], chunkSize := 8192,
    hw := { connectOk := true, configOk := true, preDestroyOk := true,
            enableOk := true, sendOk := fun _ => true, disableOk := true,
            destroyOk := true } }

/-- Scenario in which `adi.Pluto(uri)` succeeds but the immediately following
configuration assignments raise a hardware rejection. -/
def configFailInput : TransmitInput :=
  { readOk := true, dtype := AudioDType.intPCM, resample1Ok := true,
    resample2Ok := true, signal := [], chunkSize := 8192,
    hw := { connectOk := true, configOk := false, preDestroyOk := true,
            enableOk := true, sendOk := fun _ => true, disableOk := true,
            destroyOk := true } }

/-- Scenario in which every external call succeeds: two one-sample chunks are
streamed and the full cleanup runs. -/
def fullRunInput : TransmitInput :=
  { readOk := true, dtype := AudioDType.intPCM, resample1Ok := true,
    resample2Ok := true, signal := List.replicate 2 1, chunkSize := 1,
    hw := { connectOk := true, configOk := true, preDestroyOk := true,
            enableOk := true, sendOk := fun _ => true, disableOk := true,
            destroyOk := true } }

/-! Helper lemmas about ceiling division, chunking, the cumulative sum and the
peak normalization. -/

lemma lt_div_add_one_mul (a b : ℕ) (hb : 0 < b) : a < (a / b + 1) * b := by
  have h1 := Nat.div_add_mod a b
  have h2 : a % b < b := Nat.mod_lt _ hb
  have h3 : (a / b + 1) * b = b * (a / b) + b := by ring
  omega

lemma le_numChunks_mul (N C : ℕ) (hC : 0 < C) : N ≤ numChunks N C * C := by
  have h := lt_div_add_one_mul (N + C - 1) C hC
  have h3 : ((N + C - 1) / C + 1) * C = ((N + C - 1) / C) * C + C := by ring
  unfold numChunks
  omega

lemma numChunks_mul_le (N C : ℕ) : numChunks N C * C ≤ N + C - 1 := by
  unfold numChunks
  exact Nat.div_mul_le_self _ _

lemma numChunks_eq_ceil (N C : ℕ) (hC : 0 < C) :
    numChunks N C = ⌈(N : ℚ) / (C : ℚ)⌉₊ := by
  rcases Nat.eq_zero_or_pos N with hN | hN
  · subst hN
    have h0 : numChunks 0 C = 0 := by
      unfold numChunks
      exact Nat.div_eq_of_lt (by omega)
    simp [h0]
  · have hC' : (0:ℚ) < (C:ℚ) := by exact_mod_cast hC
    have hn0 : 1 ≤ numChunks N C := by
      unfold numChunks
      rw [Nat.le_div_iff_mul_le hC]
      omega
    symm
    rw [Nat.ceil_eq_iff (by omega)]
    constructor
    · rw [lt_div_iff₀ hC']
      have hup := numChunks_mul_le N C
      have hsub : (numChunks N C - 1) * C = numChunks N C * C - C := by
        rw [Nat.sub_mul, one_mul]
      have hlt : (numChunks N C - 1) * C < N := by omega
      calc ((numChunks N C - 1 : ℕ) : ℚ) * C
          = (((numChunks N C - 1) * C : ℕ) : ℚ) := by push_cast; ring
        _ < N := by exact_mod_cast hlt
    · rw [div_le_iff₀ hC']
      have hle := le_numChunks_mul N C hC
      calc (N:ℚ) ≤ ((numChunks N C * C : ℕ) : ℚ) := by exact_mod_cast hle
        _ = (numChunks N C : ℚ) * C := by push_cast; ring

lemma chunkSlice_eq_drop_take (xs : List ℂ) (C i : ℕ) :
    chunkSlice xs C i = (xs.drop (i * C)).take C := by
  unfold chunkSlice
  rcases le_or_lt ((i + 1) * C) xs.length with h | h
  · have hm : (i + 1) * C = i * C + C := by ring
    have harg : min ((i + 1) * C) xs.length - i * C = C := by omega
    rw [harg]
  · have hm : (i + 1) * C = i * C + C := by ring
    have hlen : (xs.drop (i * C)).length = xs.length - i * C := List.length_drop _ _
    have h1 : (xs.drop (i * C)).take (min ((i + 1) * C) xs.length - i * C) =
        xs.drop (i * C) := by
      apply List.take_of_length_le
      omega
    have h2 : (xs.drop (i * C)).take C = xs.drop (i * C) := by
      apply List.take_of_length_le
      omega
    rw [h1, h2]

lemma chunkSlice_length (xs : List ℂ) (C i : ℕ) :
    (chunkSlice xs C i).length = min ((i + 1) * C) xs.length - i * C := by
  unfold chunkSlice
  have hm : (i + 1) * C = i * C + C := by ring
  simp only [List.length_take, List.length_drop]
  omega

lemma flatten_chunks_take (xs : List ℂ) (C : ℕ) :
    ∀ k, ((List.range k).map (chunkSlice xs C)).flatten = xs.take (k * C) := by
  intro k
  induction k with
  | zero => simp
  | succ k ih =>
      rw [List.range_succ, List.map_append, List.flatten_append, ih]
      have hm : (k + 1) * C = k * C + C := by ring
      rw [hm, List.take_add]
      simp [chunkSlice_eq_drop_take]

lemma flatten_chunks (xs : List ℂ) (C : ℕ) (hC : 0 < C) :
    ((List.range (numChunks xs.length C)).map (chunkSlice xs C)).flatten = xs := by
  rw [flatten_chunks_take]
  exact List.take_of_length_le (le_numChunks_mul xs.length C hC)

lemma cumsumAux_length (xs : List ℝ) : ∀ acc, (cumsumAux acc xs).length = xs.length := by
  induction xs with
  | nil => intro acc; rfl
  | cons x rest ih => intro acc; simp [cumsumAux, ih]

lemma cumsumAux_getElem? (xs : List ℝ) :
    ∀ (acc : ℝ) (n : ℕ), n < xs.length →
      (cumsumAux acc xs)[n]? = some (acc + (xs.take (n + 1)).sum) := by
  induction xs with
  | nil => intro acc n h; simp at h
  | cons x rest ih =>
      intro acc n h
      cases n with
      | zero => simp [cumsumAux]
      | succ n =>
          have hn : n < rest.length := by simpa using h
          simp only [cumsumAux, List.getElem?_cons_succ]
          rw [ih (acc + x) n hn]
          congr 1
          simp [List.sum_cons]
          ring

lemma fmModulate_length (sens : ℝ) (xs : List ℝ) :
    (fmModulate sens xs).length = xs.length := by
  simp [fmModulate, cumsum, cumsumAux_length]

lemma fmModulate_getElem? (sens : ℝ) (xs : List ℝ) (n : ℕ) (h : n < xs.length) :
    (fmModulate sens xs)[n]? =
      some (Complex.exp (Complex.I * ((sens * (xs.take (n + 1)).sum : ℝ) : ℂ))) := by
  unfold fmModulate cumsum
  rw [List.getElem?_map, cumsumAux_getElem? xs 0 n h]
  simp

lemma cumsumAux_zero_replicate :
    ∀ k : ℕ, cumsumAux 0 (List.replicate k (0:ℝ)) = List.replicate k 0 := by
  intro k
  induction k with
  | zero => rfl
  | succ k ih => simp [List.replicate_succ, cumsumAux, ih]

lemma fmModulate_replicate_zero (sens : ℝ) (k : ℕ) :
    fmModulate sens (List.replicate k 0) = List.replicate k 1 := by
  unfold fmModulate cumsum
  rw [cumsumAux_zero_replicate, List.map_replicate]
  simp

lemma peakAbs_nonneg (xs : List ℝ) : 0 ≤ peakAbs xs := by
  induction xs with
  | nil => simp [peakAbs]
  | cons x rest ih =>
      simp only [peakAbs, List.map_cons, List.foldr_cons]
      exact le_max_of_le_right ih

lemma le_peakAbs (xs : List ℝ) (x : ℝ) (hx : x ∈ xs) : |x| ≤ peakAbs xs := by
  induction xs with
  | nil => simp at hx
  | cons y rest ih =>
      simp only [peakAbs, List.map_cons, List.foldr_cons]
      rcases List.mem_cons.mp hx with rfl | hm
      · exact le_max_left _ _
      · exact le_max_of_le_right (ih hm)

lemma peakAbs_map_mul (xs : List ℝ) (c : ℝ) (hc : 0 ≤ c) :
    peakAbs (xs.map (fun x => x * c)) = peakAbs xs * c := by
  induction xs with
  | nil => simp [peakAbs]
  | cons y rest ih =>
      simp only [peakAbs, List.map_cons, List.foldr_cons] at ih ⊢
      rw [ih, abs_mul, abs_of_nonneg hc, max_mul_of_nonneg _ _ hc]

lemma peakAbs_zero_of_all_zero (xs : List ℝ) (h : ∀ x ∈ xs, x = 0) :
    peakAbs xs = 0 := by
  induction xs with
  | nil => simp [peakAbs]
  | cons y rest ih =>
      simp only [peakAbs, List.map_cons, List.foldr_cons]
      have hy : y = 0 := h y (List.mem_cons_self _ _)
      have hr : peakAbs rest = 0 := ih (fun x hx => h x (List.mem_cons_of_mem _ hx))
      simp only [peakAbs] at hr
      simp [hy, hr]

lemma chunkLoopAux_send (hw : HWBehavior) (sig : List ℂ) (C : ℕ) :
    ∀ (idxs : List ℕ) (e : HWEvent),
      e ∈ chunkLoopAux hw sig C idxs → ∃ i, e = HWEvent.send i := by
  intro idxs
  induction idxs with
  | nil => intro e he; simp [chunkLoopAux] at he
  | cons i rest ih =>
      intro e he
      unfold chunkLoopAux at he
      split at he
      · exact ih e he
      · split at he
        · rcases List.mem_cons.mp he with rfl | hm
          · exact ⟨i, rfl⟩
          · exact ih e hm
        · simp at he

lemma chunkLoopAux_count_disable (hw : HWBehavior) (sig : List ℂ) (C : ℕ)
    (idxs : List ℕ) : (chunkLoopAux hw sig C idxs).count HWEvent.disableTx = 0 := by
  rw [List.count_eq_zero]
  intro hm
  rcases chunkLoopAux_send hw sig C idxs _ hm with ⟨i, hi⟩
  cases hi

lemma chunkLoopAux_count_release (hw : HWBehavior) (sig : List ℂ) (C : ℕ)
    (idxs : List ℕ) : (chunkLoopAux hw sig C idxs).count HWEvent.releaseHandle = 0 := by
  rw [List.count_eq_zero]
  intro hm
  rcases chunkLoopAux_send hw sig C idxs _ hm with ⟨i, hi⟩
  cases hi

/-! Claim theorems. -/

/-- C1: the claim states that when a chunk send raises, the chunk loop is
aborted immediately with no retry and `transmit_audio` returns `false`.  The
abort is real (after the failed send at index 1 no later chunk is sent), but
the code then still runs `transmission_successful = True` after the broken
loop, so `transmit_audio` returns `True`: the code contradicts the stated
return contract of its own docstring. -/
theorem transmit_chunk_failure_reports_success :
    (transmitAudioFlow chunkFailInput).1 = some true ∧
    HWEvent.send 0 ∈ (transmitAudioFlow chunkFailInput).2 ∧
    HWEvent.send 1 ∉ (transmitAudioFlow chunkFailInput).2 ∧
    HWEvent.send 2 ∉ (transmitAudioFlow chunkFailInput).2 := by
  decide

/-- C2 counterexample: when `connect()` succeeds and `configure()` fails, the
code returns `false` and releases the handle (`del sdr`), but it neither
disables the transmit channel nor destroys the transmit buffer, so the full
close/cleanup sequence claimed for every post-connect failure is not performed
on this path. -/
theorem transmit_config_failure_skips_buffer_teardown :
    (transmitAudioFlow configFailInput).1 = some false ∧
    (transmitAudioFlow configFailInput).2 = [HWEvent.connect, HWEvent.releaseHandle] ∧
    HWEvent.disableTx ∉ (transmitAudioFlow configFailInput).2 ∧
    HWEvent.destroyBuffer ∉ (transmitAudioFlow configFailInput).2 := by
  decide

/-- C2 amended: in every execution that reaches the device, if `configure()`
fails right after a successful `connect()` then `transmit_audio` returns
`false` and only the hardware-handle release is performed, while whenever
initialization (connect and configure) succeeds and the cleanup calls do not
themselves raise, the full close sequence — disable the transmit channel,
destroy the transmit buffer, release the handle — is performed exactly once,
as the final three hardware operations before the call returns. -/
theorem transmit_close_exactly_once (inp : TransmitInput)
    (hr : inp.readOk = true) (hd : inp.dtype ≠ AudioDType.other false)
    (h1 : inp.resample1Ok = true) (h2 : inp.resample2Ok = true)
    (hc : inp.hw.connectOk = true) :
    (inp.hw.configOk = false →
      (transmitAudioFlow inp).1 = some false ∧
      (transmitAudioFlow inp).2 = [HWEvent.connect, HWEvent.releaseHandle]) ∧
    (inp.hw.configOk = true → inp.hw.disableOk = true → inp.hw.destroyOk = true →
      (transmitAudioFlow inp).2.count HWEvent.disableTx = 1 ∧
      (transmitAudioFlow inp).2.count HWEvent.releaseHandle = 1 ∧
      ∃ pre, (transmitAudioFlow inp).2 =
        pre ++ [HWEvent.disableTx, HWEvent.destroyBuffer, HWEvent.releaseHandle]) := by
  constructor
  · intro hcfg
    simp [transmitAudioFlow, hr, hd, h1, h2, hc, hcfg]
  · intro hcfg hdis hdes
    have hclean : cleanupEvents inp.hw =
        [HWEvent.disableTx, HWEvent.destroyBuffer, HWEvent.releaseHandle] := by
      simp [cleanupEvents, hdis, hdes]
    cases hen : inp.hw.enableOk with
    | false =>
        have hev : (transmitAudioFlow inp).2 =
            (HWEvent.connect :: HWEvent.setConfig ::
              (if inp.hw.preDestroyOk then [HWEvent.destroyBuffer] else [])) ++
              [HWEvent.disableTx, HWEvent.destroyBuffer, HWEvent.releaseHandle] := by
          simp [transmitAudioFlow, hr, hd, h1, h2, hc, hcfg, hen, hclean]
        rw [hev]
        refine ⟨?_, ?_, HWEvent.connect :: HWEvent.setConfig ::
            (if inp.hw.preDestroyOk then [HWEvent.destroyBuffer] else []), rfl⟩ <;>
          cases hpd : inp.hw.preDestroyOk <;>
            simp [hpd, List.count_append, List.count_cons]
    | true =>
        have hev : (transmitAudioFlow inp).2 =
            (HWEvent.connect :: HWEvent.setConfig ::
              ((if inp.hw.preDestroyOk then [HWEvent.destroyBuffer] else []) ++
                HWEvent.enableTx ::
                chunkLoopAux inp.hw inp.signal inp.chunkSize
                  (List.range (numChunks inp.signal.length inp.chunkSize)))) ++
              [HWEvent.disableTx, HWEvent.destroyBuffer, HWEvent.releaseHandle] := by
          simp [transmitAudioFlow, hr, hd, h1, h2, hc, hcfg, hen, hclean]
        rw [hev]
        refine ⟨?_, ?_, HWEvent.connect :: HWEvent.setConfig ::
            ((if inp.hw.preDestroyOk then [HWEvent.destroyBuffer] else []) ++
              HWEvent.enableTx ::
              chunkLoopAux inp.hw inp.signal inp.chunkSize
                (List.range (numChunks inp.signal.length inp.chunkSize))), rfl⟩ <;>
          cases hpd : inp.hw.preDestroyOk <;>
            simp [hpd, List.count_append, List.count_cons,
              chunkLoopAux_count_disable, chunkLoopAux_count_release]

/-- Witness for the amended C2 theorem at a concrete all-success run. -/
theorem transmit_close_exactly_once_witness :
    (transmitAudioFlow fullRunInput).2.count HWEvent.disableTx = 1 ∧
    (transmitAudioFlow fullRunInput).2.count HWEvent.releaseHandle = 1 ∧
    ∃ pre, (transmitAudioFlow fullRunInput).2 =
      pre ++ [HWEvent.disableTx, HWEvent.destroyBuffer, HWEvent.releaseHandle] :=
  (transmit_close_exactly_once fullRunInput rfl (by decide) rfl rfl rfl).2 rfl rfl rfl

/-- C3: on a WAV whose sample encoding is neither integer nor floating PCM and
whose best-effort float cast fails, the operation indeed fails, but
`transmit_audio` executes the bare `return` of line 111 and hence returns the
Python value `None`, not the boolean `false` required by the claim and the
function's own docstring (`Returns: bool`). -/
theorem transmit_cast_failure_returns_none :
    (transmitAudioFlow castFailInput).1 = Option.none ∧
    (transmitAudioFlow castFailInput).1 ≠ some false := by
  decide

/-- C4: the FM modulator produces exactly one output sample per input sample,
output n is the unit complex exponential of the cumulative sum of the inputs
up to and including index n scaled by the sensitivity 2π·deviation/rate, with
a single integration over the whole buffer, and a 10-sample all-zero input at
deviation 5000 Hz and rate 48000 Hz yields ten samples all equal to 1. -/
theorem fm_modulator_formula (xs : List ℝ) (d fs : ℝ) :
    (fmModulate (sensitivity d fs) xs).length = xs.length ∧
    (∀ n, n < xs.length →
      (fmModulate (sensitivity d fs) xs)[n]? =
        some (Complex.exp (Complex.I *
          ((2 * Real.pi * d / fs * (xs.take (n + 1)).sum : ℝ) : ℂ)))) ∧
    fmModulate (sensitivity 5000 48000) (List.replicate 10 0) =
      List.replicate 10 1 := by
  refine ⟨fmModulate_length _ _, ?_, fmModulate_replicate_zero _ 10⟩
  intro n hn
  rw [fmModulate_getElem? _ _ _ hn]
  simp [sensitivity]

/-- Witness for the C4 theorem at a one-sample zero input. -/
theorem fm_modulator_formula_witness :
    (fmModulate (sensitivity 5000 48000) [(0:ℝ)])[0]? =
      some (Complex.exp (Complex.I *
        ((2 * Real.pi * 5000 / 48000 * (([(0:ℝ)].take 1).sum) : ℝ) : ℂ))) :=
  (fm_modulator_formula [(0:ℝ)] 5000 48000).2.1 0 (by simp)

/-- C5: for a signal of length N and chunk size C > 0, the chunk loop yields
exactly ceil(N/C) slices whose in-order concatenation reproduces the signal,
and for C = 8192 and N = 20000 there are 3 chunks of sizes 8192, 8192, 3616. -/
theorem chunking_reconstruction (xs : List ℂ) (C : ℕ) (hC : 0 < C)
    (hN : 0 < xs.length) :
    numChunks xs.length C = ⌈(xs.length : ℚ) / (C : ℚ)⌉₊ ∧
    ((List.range (numChunks xs.length C)).map (chunkSlice xs C)).flatten = xs ∧
    numChunks 20000 8192 = 3 ∧
    (List.range (numChunks 20000 8192)).map
        (fun i => (chunkSlice (List.replicate 20000 (0:ℂ)) 8192 i).length) =
      [8192, 8192, 3616] := by
  refine ⟨numChunks_eq_ceil xs.length C hC, flatten_chunks xs C hC, ?_, ?_⟩
  · norm_num [numChunks]
  · have h3 : numChunks 20000 8192 = 3 := by norm_num [numChunks]
    rw [h3]
    norm_num [List.range_succ, chunkSlice_length]

/-- Witness for the C5 theorem at a three-sample signal with chunk size two. -/
theorem chunking_reconstruction_witness :
    ((List.range (numChunks (List.replicate 3 (1:ℂ)).length 2)).map
        (chunkSlice (List.replicate 3 (1:ℂ)) 2)).flatten =
      List.replicate 3 (1:ℂ) :=
  (chunking_reconstruction (List.replicate 3 (1:ℂ)) 2 (by norm_num) (by simp)).2.1

/-- C6: every sample produced by the FM modulator, before the final DAC
amplitude scaling, lies on the complex unit circle (magnitude exactly 1). -/
theorem fm_unit_circle (sens : ℝ) (xs : List ℝ) (z : ℂ)
    (hz : z ∈ fmModulate sens xs) : Complex.abs z = 1 := by
  unfold fmModulate at hz
  rcases List.mem_map.mp hz with ⟨p, _, rfl⟩
  rw [Complex.abs_exp]
  simp [Complex.mul_re]

/-- Witness for the C6 theorem at the single sample of a one-sample input. -/
theorem fm_unit_circle_witness :
    Complex.abs (Complex.exp (Complex.I * ((((1:ℝ) * (0 + 0)) : ℝ) : ℂ))) = 1 :=
  fm_unit_circle 1 [0] _ (by simp [fmModulate, cumsum, cumsumAux])

/-- C7: with the up/down ratio derived by gcd reduction, the resampler's
output length equals ceil(input_length × up / down) — in particular it is
within one sample of it — and for a 44100-sample input resampled from
44100 Hz to 48000 Hz the ratio is (160, 147) and the output length is
exactly 48000. -/
theorem resample_length_spec (L src tgt : ℕ) (hs : 0 < src) (ht : 0 < tgt) :
    resampleLength L (rationalRatio tgt src).1 (rationalRatio tgt src).2 =
      ⌈((L * (rationalRatio tgt src).1 : ℕ) : ℚ) /
        ((rationalRatio tgt src).2 : ℚ)⌉₊ ∧
    rationalRatio 48000 44100 = (160, 147) ∧
    resampleLength 44100 160 147 = 48000 := by
  refine ⟨?_, by decide, by decide⟩
  have hd : 0 < (rationalRatio tgt src).2 := by
    apply Nat.div_pos (Nat.le_of_dvd hs (Nat.gcd_dvd_right tgt src))
    exact Nat.gcd_pos_of_pos_right tgt hs
  have hre : resampleLength L (rationalRatio tgt src).1 (rationalRatio tgt src).2 =
      numChunks (L * (rationalRatio tgt src).1) (rationalRatio tgt src).2 := rfl
  rw [hre]
  exact numChunks_eq_ceil _ _ hd

/-- Witness for the C7 theorem at the 44100 Hz → 48000 Hz scenario. -/
theorem resample_length_spec_witness :
    resampleLength 44100 (rationalRatio 48000 44100).1 (rationalRatio 48000 44100).2 =
      ⌈((44100 * (rationalRatio 48000 44100).1 : ℕ) : ℚ) /
        ((rationalRatio 48000 44100).2 : ℚ)⌉₊ :=
  (resample_length_spec 44100 44100 48000 (by norm_num) (by norm_num)).1

/-- C8: for positive source and target rates, the gcd-reduced up/down factors
are positive and coprime. -/
theorem ratio_coprime (src tgt : ℕ) (hs : 0 < src) (ht : 0 < tgt) :
    0 < (rationalRatio tgt src).1 ∧ 0 < (rationalRatio tgt src).2 ∧
    Nat.gcd (rationalRatio tgt src).1 (rationalRatio tgt src).2 = 1 := by
  have hg : 0 < Nat.gcd tgt src := Nat.gcd_pos_of_pos_right tgt hs
  refine ⟨?_, ?_, ?_⟩
  · exact Nat.div_pos (Nat.le_of_dvd ht (Nat.gcd_dvd_left tgt src)) hg
  · exact Nat.div_pos (Nat.le_of_dvd hs (Nat.gcd_dvd_right tgt src)) hg
  · exact Nat.coprime_div_gcd_div_gcd hg

/-- Witness for the C8 theorem at the rates 44100 Hz and 48000 Hz. -/
theorem ratio_coprime_witness :
    0 < (rationalRatio 48000 44100).1 ∧ 0 < (rationalRatio 48000 44100).2 ∧
    Nat.gcd (rationalRatio 48000 44100).1 (rationalRatio 48000 44100).2 = 1 :=
  ratio_coprime 44100 48000 (by norm_num) (by norm_num)

/-- C9: after the first resampling stage, a buffer with some nonzero sample is
rescaled so that its peak absolute value is exactly 0.95, and an all-zero
buffer is passed through unchanged. -/
theorem renormalize_headroom (xs : List ℝ) :
    ((∃ x ∈ xs, x ≠ 0) → peakAbs (renormalize xs) = 0.95) ∧
    ((∀ x ∈ xs, x = 0) → renormalize xs = xs) := by
  constructor
  · rintro ⟨x, hx, hx0⟩
    have hpos : 0 < peakAbs xs := lt_of_lt_of_le (abs_pos.mpr hx0) (le_peakAbs xs x hx)
    have hne : peakAbs xs ≠ 0 := ne_of_gt hpos
    unfold renormalize
    rw [if_pos hpos]
    have hfun : (fun x => x / peakAbs xs * 0.95) =
        (fun x => x * (0.95 / peakAbs xs)) := by
      funext y; ring
    rw [hfun, peakAbs_map_mul xs _ (by positivity)]
    field_simp
  · intro h
    unfold renormalize
    rw [if_neg]
    rw [peakAbs_zero_of_all_zero xs h]
    simp

/-- Witness for the C9 theorem at the one-sample buffer 1/2. -/
theorem renormalize_headroom_witness :
    peakAbs (renormalize [(1:ℝ)/2]) = 0.95 :=
  (renormalize_headroom [(1:ℝ)/2]).1 ⟨1/2, by simp, by norm_num⟩

/-- C10: with a positive total sample count and a positive chunk size, every
one of the ceil(N/C) slices produced by the chunk loop is non-empty, so the
empty-chunk skip branch of the loop is unreachable. -/
theorem chunk_nonempty (xs : List ℂ) (C i : ℕ) (hC : 0 < C)
    (hN : 0 < xs.length) (hi : i < numChunks xs.length C) :
    chunkSlice xs C i ≠ [] := by
  apply List.ne_nil_of_length_pos
  rw [chunkSlice_length]
  have hi' : i + 1 ≤ numChunks xs.length C := hi
  unfold numChunks at hi'
  have h1 : (i + 1) * C ≤ xs.length + C - 1 := (Nat.le_div_iff_mul_le hC).mp hi'
  have hm : (i + 1) * C = i * C + C := by ring
  omega

/-- Witness for the C10 theorem at a one-sample signal with chunk size one. -/
theorem chunk_nonempty_witness : chunkSlice [(0:ℂ)] 1 0 ≠ [] :=
  chunk_nonempty [(0:ℂ)] 1 0 (by norm_num) (by simp) (by norm_num [numChunks])

end TransmitFM
